import Mathlib

/-!
Shallow embedding of the request/response normalization layer of
`nova/api/openstack` (files `common.py` and `ips.py`), together with
theorems checking the natural-language specification against it.

Modelling conventions, used throughout:
* Python `int` is `Int`; query parameters that the source reads with
  `request.GET.get(...)` and converts with `int(...)` are modelled as
  already-parsed `Option Int` arguments (absent parameter = `none`).
* Python exceptions (`webob.exc.HTTPBadRequest`, `ValueError`, `KeyError`)
  are modelled with `Except String`; the carried string is the message.
* Python dicts that the source only ever reads by key are association
  lists (`List (key × value)`) looked up with `List.lookup`; dict literals
  and insertions are kept in program order, with `dictUpdate` giving the
  update-in-place-or-append semantics of `d[k] = v`.
* Python list slicing `items[a:b]` is `pySlice`, including the clamping
  and negative-index wrapping semantics of CPython slices.
-/

/-- Effective index of a Python slice bound `i` for a sequence of length
`len`: negative indices count from the end and everything is clamped to
`[0, len]`. -/
def pyIndex (len : Nat) (i : Int) : Nat :=
  if i < 0 then ((len : Int) + i).toNat else min i.toNat len

/-- Python list slice `l[start:stop]`. -/
def pySlice (l : List α) (start stop : Int) : List α :=
  (l.take (pyIndex l.length stop)).drop (pyIndex l.length start)

/-- An element of a paginated collection, as consumed by
`limited_by_marker` (the source only reads `item['id']`). -/
structure Item where
  id : Int
deriving DecidableEq, Repr

/-- `common.get_pagination_params(request)`: validate the optional
`marker` and `limit` query parameters, failing on a negative value.
(The `int(...)` parse failure for non-integer strings is outside the
model: arguments arrive already parsed.) -/
def get_pagination_params (marker lim : Option Int) :
    Except String (Option Int × Option Int) :=
  match marker with
  | some mv =>
    if mv < 0 then .error "marker param must be positive"
    else
      match lim with
      | some lv =>
        if lv < 0 then .error "limit param must be positive"
        else .ok (some mv, some lv)
      | none => .ok (some mv, none)
  | none =>
    match lim with
    | some lv =>
      if lv < 0 then .error "limit param must be positive"
      else .ok (none, some lv)
    | none => .ok (none, none)

/-- `common.limited(items, request, max_limit)`: offset/limit pagination.
`offset` defaults to 0 and `limit` to `max_limit`; negative values are
rejected; the effective limit is `min(max_limit, limit or max_limit)`
(Python `or`: a limit of exactly 0 falls back to `max_limit`). -/
def limited (items : List α) (offset lim : Option Int) (max_limit : Int) :
    Except String (List α) :=
  let offset := offset.getD 0
  let lim := lim.getD max_limit
  if lim < 0 then .error "limit param must be positive"
  else if offset < 0 then .error "offset param must be positive"
  else
    let lim := min max_limit (if lim = 0 then max_limit else lim)
    .ok (pySlice items offset (offset + lim))

/-- `common.limited_by_marker(items, request, max_limit)`: marker/limit
pagination.  After validation, a truthy (non-`None`, non-zero) marker is
scanned for in `items`; the window starts right after the first element
whose `id` equals the marker, and a marker matching no element is an
error.  A falsy marker (absent, or the integer 0) leaves the start at
index 0. -/
def limited_by_marker (items : List Item) (marker lim : Option Int)
    (max_limit : Int) : Except String (List Item) :=
  match get_pagination_params marker lim with
  | .error e => .error e
  | .ok (m, l) =>
    let lim := min max_limit (l.getD max_limit)
    if m.getD 0 ≠ 0 then
      match items.findIdx? (fun it => it.id == m.getD 0) with
      | some i => .ok (pySlice items ((i : Int) + 1) ((i : Int) + 1 + lim))
      | none =>
        .error ("marker [" ++ toString (m.getD 0) ++ "] not found")
    else .ok (pySlice items 0 lim)

section SliceLemmas

/-- A Python slice with non-negative bounds is drop-then-take. -/
theorem pySlice_of_nonneg (l : List α) (a b : Int) (ha : 0 ≤ a) (hb : 0 ≤ b) :
    pySlice l a b = (l.drop a.toNat).take (b.toNat - a.toNat) := by
  unfold pySlice pyIndex
  rw [if_neg (by omega), if_neg (by omega)]
  rcases le_or_lt a.toNat l.length with h | h
  · rw [min_eq_left h]
    rcases le_or_lt b.toNat l.length with h2 | h2
    · rw [min_eq_left h2, List.drop_take]
    · rw [min_eq_right (le_of_lt h2), List.take_length,
        List.take_of_length_le (by simp; omega)]
  · rw [min_eq_right (le_of_lt h)]
    have h1 : (l.take (min b.toNat l.length)).length ≤ l.length := by
      simp [List.length_take]
    rw [List.drop_eq_nil_of_le h1,
      List.drop_eq_nil_of_le (le_of_lt h), List.take_nil]

/-- A drop-then-take window is a contiguous sub-sequence. -/
theorem drop_take_infix (l : List α) (a b : Nat) :
    ∃ pre post, l = pre ++ (l.drop a).take b ++ post := by
  refine ⟨l.take a, (l.drop a).drop b, ?_⟩
  rw [List.append_assoc, List.take_append_drop, List.take_append_drop]

end SliceLemmas

/-!
## Lifecycle state map (`common._STATE_MAP`, `status_from_state`,
`vm_state_from_status`)
-/

/-!
Modelled from the spec: the `nova.compute.vm_states` module is not
under `src/`; the spec declares `LifecycleState` as an enumeration of
twelve distinct values, so each constant is modelled as a distinct
string.
-/

namespace vm_states

def ACTIVE : String := "active"

def BUILDING : String := "building"

def REBUILDING : String := "rebuilding"

def STOPPED : String := "stopped"

def MIGRATING : String := "migrating"

def RESIZING : String := "resizing"

def PAUSED : String := "paused"

def SUSPENDED : String := "suspended"

def RESCUED : String := "rescued"

def ERROR : String := "error"

def DELETED : String := "deleted"

def SOFT_DELETE : String := "soft-delete"

end vm_states

/-!
Modelled from the spec: the `nova.compute.task_states` module is not
under `src/`; the three task states named by `_STATE_MAP` are modelled as
distinct strings (also distinct from the `'default'` key).
-/

namespace task_states

def REBOOTING : String := "rebooting"

def UPDATING_PASSWORD : String := "updating_password"

def RESIZE_VERIFY : String := "resize_verify"

end task_states

/-- `common._STATE_MAP`, as an association list in declaration order
(Python dict iteration is modelled as insertion order). -/
def _STATE_MAP : List (String × List (String × String)) :=
  [(vm_states.ACTIVE,
      [("default", "ACTIVE"),
       (task_states.REBOOTING, "REBOOT"),
       (task_states.UPDATING_PASSWORD, "PASSWORD"),
       (task_states.RESIZE_VERIFY, "VERIFY_RESIZE")]),
   (vm_states.BUILDING, [("default", "BUILD")]),
   (vm_states.REBUILDING, [("default", "REBUILD")]),
   (vm_states.STOPPED, [("default", "STOPPED")]),
   (vm_states.MIGRATING, [("default", "MIGRATING")]),
   (vm_states.RESIZING, [("default", "RESIZE")]),
   (vm_states.PAUSED, [("default", "PAUSED")]),
   (vm_states.SUSPENDED, [("default", "SUSPENDED")]),
   (vm_states.RESCUED, [("default", "RESCUE")]),
   (vm_states.ERROR, [("default", "ERROR")]),
   (vm_states.DELETED, [("default", "DELETED")]),
   (vm_states.SOFT_DELETE, [("default", "DELETED")])]

/-- `common.status_from_state(vm_state, task_state='default')`:
`_STATE_MAP.get(vm_state, dict(default='UNKNOWN_STATE'))`, then
`task_map.get(task_state, task_map['default'])`.  Every reachable task
map contains a `'default'` key, so the `getD ""` fallback on the inner
`task_map['default']` access is never the returned value. -/
def status_from_state (vm_state : String) (task_state : String := "default") :
    String :=
  let task_map := (_STATE_MAP.lookup vm_state).getD [("default", "UNKNOWN_STATE")]
  (task_map.lookup task_state).getD ((task_map.lookup "default").getD "")

/-- Python `str.lower()`, character by character (the status strings
involved are ASCII). -/
def pyLower (s : String) : String := String.mk (s.toList.map Char.toLower)

/-- `common.vm_state_from_status(status)`: first state (in table order)
whose `default` status string equals `status` case-insensitively;
`none` models Python falling off the loop and returning `None`. -/
def vm_state_from_status (status : String) : Option String :=
  (_STATE_MAP.find? (fun p =>
      pyLower status == pyLower ((p.2.lookup "default").getD ""))).map (·.1)

/-- The spec's description of `state_from_status`, written from its
words: iterate the declared states in a fixed enumeration order, compare
`status` case-insensitively against each state's `default` status
string, return the first match. -/
def declared_defaults_in_order : List (String × String) :=
  [(vm_states.ACTIVE, "ACTIVE"),
   (vm_states.BUILDING, "BUILD"),
   (vm_states.REBUILDING, "REBUILD"),
   (vm_states.STOPPED, "STOPPED"),
   (vm_states.MIGRATING, "MIGRATING"),
   (vm_states.RESIZING, "RESIZE"),
   (vm_states.PAUSED, "PAUSED"),
   (vm_states.SUSPENDED, "SUSPENDED"),
   (vm_states.RESCUED, "RESCUE"),
   (vm_states.ERROR, "ERROR"),
   (vm_states.DELETED, "DELETED"),
   (vm_states.SOFT_DELETE, "DELETED")]

/-- Spec-side reverse lookup (see `declared_defaults_in_order`). -/
def state_from_status_spec (status : String) : Option String :=
  (declared_defaults_in_order.find? (fun p =>
      pyLower status == pyLower p.2)).map (·.1)

/-- `List.lookup` only returns values stored in the list. -/
theorem lookup_mem_values [BEq α] (l : List (α × β)) (k : α) (v : β)
    (h : l.lookup k = some v) : v ∈ l.map Prod.snd := by
  induction l with
  | nil => simp [List.lookup] at h
  | cons p t ih =>
    rw [List.lookup] at h
    cases hk : (k == p.1)
    · rw [hk] at h
      simp only [List.map_cons, List.mem_cons]
      exact Or.inr (ih h)
    · rw [hk] at h
      simp only [Option.some.injEq] at h
      simp [← h]

/-!
## Href version codec (`common.remove_version_from_href`,
`common.get_version_from_href`)

URLs are modelled after `urlparse.urlsplit`: a record of scheme, netloc,
path, query and fragment.  `remove_version_from_href` only rewrites the
path component, so the model keeps the split form on both sides
(`urlunsplit`/`urlsplit` round-tripping of well-formed URLs preserves the
path).  The regular expressions of the source are implemented as
deterministic character-list matchers; for these patterns greedy matching
never needs backtracking, because a digit run followed by a mandatory
non-digit literal cannot be shrunk into another match.
-/

/-- Split a character list into its longest digit prefix (`[0-9]+`
greedy) and the remainder. -/
def takeDigits : List Char → List Char × List Char
  | [] => ([], [])
  | c :: cs =>
    if c.isDigit then
      let (ds, r) := takeDigits cs
      (c :: ds, r)
    else ([], c :: cs)

/-- `re.sub(r'^/v[0-9]+\.[0-9]+(/|$)', r'\1', path, count=1)` on the
character list of a path, returning `none` when the pattern does not
match (so the path would be left unchanged). -/
def stripVChars : List Char → Option (List Char)
  | '/' :: 'v' :: rest =>
    match takeDigits rest with
    | ([], _) => none
    | (_ :: _, r1) =>
      match r1 with
      | '.' :: r2 =>
        match takeDigits r2 with
        | ([], _) => none
        | (_ :: _, r3) =>
          match r3 with
          | [] => some []
          | '/' :: tail => some ('/' :: tail)
          | _ => none
      | _ => none
  | _ => none

/-- A split URL, after `urlparse.urlsplit`. -/
structure SplitUrl where
  scheme : String
  netloc : String
  path : String
  query : String
  fragment : String
deriving DecidableEq, Repr

/-- `common.remove_version_from_href(href)`: strip the first leading
`/v<digits>.<digits>(/|$)` segment from the path; raise `ValueError`
when the substitution leaves the path unchanged. -/
def remove_version_from_href (u : SplitUrl) : Except String SplitUrl :=
  let new_path := ((stripVChars u.path.toList).map String.mk).getD u.path
  if new_path = u.path then
    .error ("href " ++ u.path ++ " does not contain version")
  else .ok ⟨u.scheme, u.netloc, new_path, u.query, u.fragment⟩

/-- Attempt to match `[/][v][0-9]+\.[0-9]+[/]` at the head of a character
list, returning the matched substring. -/
def tryPatSlash (l : List Char) : Option (List Char) :=
  match l with
  | '/' :: 'v' :: rest =>
    match takeDigits rest with
    | ([], _) => none
    | (d1, r1) =>
      match r1 with
      | '.' :: r2 =>
        match takeDigits r2 with
        | ([], _) => none
        | (d2, r3) =>
          match r3 with
          | '/' :: _ => some ('/' :: 'v' :: (d1 ++ '.' :: d2 ++ ['/']))
          | _ => none
      | _ => none
  | _ => none

/-- Attempt to match `[/][v][0-9]+\.[0-9]+$` (the whole remaining list). -/
def tryPatEnd (l : List Char) : Option (List Char) :=
  match l with
  | '/' :: 'v' :: rest =>
    match takeDigits rest with
    | ([], _) => none
    | (d1, r1) =>
      match r1 with
      | '.' :: r2 =>
        match takeDigits r2 with
        | ([], _) => none
        | (d2, r3) =>
          match r3 with
          | [] => some ('/' :: 'v' :: (d1 ++ '.' :: d2))
          | _ => none
      | _ => none
  | _ => none

/-- Leftmost match of a head-matcher over a character list: the first
element of Python's `re.findall`. -/
def findLeftmost (try_at : List Char → Option (List Char)) :
    List Char → Option (List Char)
  | [] => try_at []
  | l@(_ :: cs) =>
    match try_at l with
    | some m => some m
    | none => findLeftmost try_at cs

/-- Attempt to match `[0-9]+\.[0-9]` at the head of a character list
(the numeric-extraction pattern of `get_version_from_href`; note the
single trailing digit). -/
def tryPatNum (l : List Char) : Option (List Char) :=
  match takeDigits l with
  | ([], _) => none
  | (ds, r) =>
    match r with
    | '.' :: c :: _ => if c.isDigit then some (ds ++ ['.', c]) else none
    | _ => none

/-- Extract the numeric part of a matched version segment:
`re.findall(r'[0-9]+\.[0-9]', m)[0]`, with the `IndexError` fallback of
the source mapping a failed extraction to `'1.0'`.  This single function
is used for both match locations. -/
def extract_version_number (m : List Char) : String :=
  match findLeftmost tryPatNum m with
  | some num => String.mk num
  | none => "1.0"

/-- `common.get_version_from_href(href)`: find the first
`/v<digits>.<digits>/` occurrence anywhere in the href, else a trailing
`/v<digits>.<digits>`, and extract the numeric part; `'1.0'` when
nothing matches. -/
def get_version_from_href (href : String) : String :=
  match findLeftmost tryPatSlash href.toList with
  | some m => extract_version_number m
  | none =>
    match findLeftmost tryPatEnd href.toList with
    | some m => extract_version_number m
    | none => "1.0"

/-!
## Network view assembler (`common.get_networks_for_instance`)

The per-network info dicts of the network collaborator are modelled as
records with `Option` fields: `none` stands for a missing key, whose
access raises `KeyError` in Python.  A falsy (`if not info: continue`)
info value is `none` at the outer `Option`.  The floating-ip collaborator
`network_api.get_floating_ips_by_fixed_address` is an explicit function
argument, and `FLAGS.use_ipv6` an explicit boolean.
-/

/-- One element of an `info['ips']` / `info['ip6s']` list; only the
`'ip'` key is read by the source. -/
structure IpEntry where
  ip : Option String
deriving DecidableEq, Repr

/-- A non-empty per-network info dict: `label`, `ips` and `ip6s` keys,
each possibly missing. -/
structure NetInfo where
  label : Option String
  ips : Option (List IpEntry)
  ip6s : Option (List IpEntry)
deriving DecidableEq, Repr

/-- `_emit_addr(ip, version)`. -/
structure Addr where
  addr : String
  version : Nat
deriving DecidableEq, Repr

/-- The inner `for ip in info['ips']` loop: collect fixed v4 addresses in
order and the floating addresses resolved for each, failing on a missing
`'ip'` key. -/
def emit_fixed (get_floats : String → List String) :
    List IpEntry → Except String (List Addr × List Addr)
  | [] => .ok ([], [])
  | e :: rest =>
    match e.ip with
    | none => .error "KeyError: ip"
    | some ipstr =>
      match emit_fixed get_floats rest with
      | .error msg => .error msg
      | .ok (ips, floats) =>
        .ok (⟨ipstr, 4⟩ :: ips,
             (get_floats ipstr).map (fun a => ⟨a, 4⟩) ++ floats)

/-- The `info['ip6s']` comprehension: v6 addresses in order, failing on a
missing `'ip'` key. -/
def emit_ip6 : List IpEntry → Except String (List Addr)
  | [] => .ok []
  | e :: rest =>
    match e.ip with
    | none => .error "KeyError: ip"
    | some ipstr =>
      match emit_ip6 rest with
      | .error msg => .error msg
      | .ok r => .ok (⟨ipstr, 6⟩ :: r)

/-- The body of the `for net, info in nw_info` loop up to (and not
including) the `networks[info['label']] = network` assignment: build one
`{ips, floating_ips}` pair for a non-empty info. -/
def assemble_network (use_ipv6 : Bool) (get_floats : String → List String)
    (info : NetInfo) : Except String (List Addr × List Addr) :=
  match info.ips with
  | none => .error "KeyError: ips"
  | some entries =>
    match emit_fixed get_floats entries with
    | .error msg => .error msg
    | .ok (ips4, floats) =>
      match use_ipv6, info.ip6s with
      | true, some sixes =>
        match emit_ip6 sixes with
        | .error msg => .error msg
        | .ok ips6 => .ok (ips4 ++ ips6, floats)
      | _, _ => .ok (ips4, floats)

/-- Python `d[k] = v` on an insertion-ordered dict: replace in place if
the key exists, else append. -/
def dictUpdate (d : List (String × α)) (k : String) (v : α) :
    List (String × α) :=
  if d.any (fun p => p.1 == k) then
    d.map (fun p => if p.1 == k then (k, v) else p)
  else d ++ [(k, v)]

/-- The `for net, info in nw_info` loop of `get_networks_for_instance`,
with the accumulated `networks` dict made explicit. -/
def networks_loop (use_ipv6 : Bool) (get_floats : String → List String)
    (acc : List (String × (List Addr × List Addr))) :
    List (String × Option NetInfo) →
    Except String (List (String × (List Addr × List Addr)))
  | [] => .ok acc
  | (_, none) :: rest => networks_loop use_ipv6 get_floats acc rest
  | (_, some info) :: rest =>
    match assemble_network use_ipv6 get_floats info with
    | .error msg => .error msg
    | .ok network =>
      match info.label with
      | none => .error "KeyError: label"
      | some lab =>
        networks_loop use_ipv6 get_floats (dictUpdate acc lab network) rest

/-- `common.get_networks_for_instance(context, instance)`, with the
collaborator data (`nw_info`), the floating-ip resolver and the
`use_ipv6` flag as explicit inputs. -/
def get_networks_for_instance (use_ipv6 : Bool)
    (get_floats : String → List String)
    (nw_info : List (String × Option NetInfo)) :
    Except String (List (String × (List Addr × List Addr))) :=
  networks_loop use_ipv6 get_floats [] nw_info

/-- A non-empty info record is malformed when a key that the loop body
reads is missing: `ips`, an `ip` inside `ips`, an `ip` inside `ip6s`
(only read when `use_ipv6` is set and `'ip6s' in info`), or `label`. -/
def malformed (use_ipv6 : Bool) (info : NetInfo) : Prop :=
  info.ips = none ∨
  (∃ entries, info.ips = some entries ∧ ∃ e ∈ entries, e.ip = none) ∨
  (use_ipv6 = true ∧
    ∃ sixes, info.ip6s = some sixes ∧ ∃ e ∈ sixes, e.ip = none) ∨
  info.label = none

/-!
## XML serialization (`common.MetadataXMLSerializer`,
`common.MetadataXMLDeserializer`, `ips.create_resource` namespaces)

Documents are modelled at the element-tree level (the `lxml.etree` /
`minidom` layer): rendering a tree to bytes and parsing it back is the
identity on the tree for content that is valid attribute/text data, which
is exactly the hypothesis of the round-trip claim.  The metadata
documents are one root with flat children, so a two-level tree suffices.
-/

/-- `common.XML_NS_V10`. -/
def XML_NS_V10 : String := "http://docs.rackspacecloud.com/servers/api/v1.0"

/-- `common.XML_NS_V11`. -/
def XML_NS_V11 : String := "http://docs.openstack.org/compute/api/v1.1"

/-- Modelled from the spec: the `nova.api.openstack.wsgi` module is not
under `src/`; its `XMLNS_V11` constant is the spec's v1.1 namespace URI
(`.../compute/api/v1.1`), the same URI as `common.XML_NS_V11`. -/
def wsgi.XMLNS_V11 : String := "http://docs.openstack.org/compute/api/v1.1"

/-- Modelled from the spec: the `nova.api.openstack.xmlutil` module is
not under `src/`; its `XMLNS_V11` constant is the spec's v1.1 namespace
URI. -/
def xmlutil.XMLNS_V11 : String := "http://docs.openstack.org/compute/api/v1.1"

/-- A child element of a flat metadata document. -/
structure XmlChild where
  tag : String
  attrs : List (String × String)
  text : String
deriving DecidableEq, Repr

/-- A rendered document: root tag, root default namespace (`nsmap`), and
children. -/
structure XmlDoc where
  tag : String
  ns : Option String
  children : List XmlChild
deriving DecidableEq, Repr

/-- `minidom.getAttribute(name)`: the attribute's value, or `''` when
absent. -/
def getAttribute (attrs : List (String × String)) (name : String) : String :=
  (attrs.lookup name).getD ""

/-- `MetadataXMLSerializer.populate_metadata`: one `meta` child per
entry, with a `key` attribute and text equal to the value, in dict
(insertion) order. -/
def populate_metadata (meta_dict : List (String × String)) : List XmlChild :=
  meta_dict.map (fun kv => ⟨"meta", [("key", kv.1)], kv.2⟩)

/-- `MetadataXMLSerializer.create` (and `index`/`update_all`, which are
identical): a `metadata` root in the `NSMAP` namespace
(`xmlutil.XMLNS_V11`) populated from the `'metadata'` entry of the input
(the `metadata_dict.get('metadata', {})` projection is applied by the
caller of this model). -/
def MetadataXMLSerializer.create (metadata : List (String × String)) :
    XmlDoc :=
  ⟨"metadata", some xmlutil.XMLNS_V11, populate_metadata metadata⟩

/-- `MetadataXMLDeserializer.extract_metadata`: fold the `meta` children
into a dict, `metadata[key] = extract_text(node)` in document order. -/
def extract_metadata (node : Option XmlDoc) : List (String × String) :=
  match node with
  | none => []
  | some n =>
    (n.children.filter (fun c => c.tag == "meta")).foldl
      (fun md c => dictUpdate md (getAttribute c.attrs "key") c.text) []

/-- The `{'metadata': ...}` layer of the deserialized envelope. -/
structure MetadataBody where
  metadata : List (String × String)
deriving DecidableEq, Repr

/-- The `{'body': {'metadata': ...}}` envelope returned by
`MetadataXMLDeserializer.create`. -/
structure RequestEnvelope where
  body : MetadataBody
deriving DecidableEq, Repr

/-- `MetadataXMLDeserializer.create` =
`_extract_metadata_container(datastring)`: parse, find the first child
of the document named `metadata` (the root, when so named), extract the
mapping and wrap it as `{'body': {'metadata': ...}}`. -/
def MetadataXMLDeserializer.create (doc : XmlDoc) : RequestEnvelope :=
  ⟨⟨extract_metadata (if doc.tag == "metadata" then some doc else none)⟩⟩

/-- The root default namespace that `ips.create_resource(version)`
equips the address-resource XML serializer with: `wsgi.XMLNS_V11` for
version `'1.0'` (`wsgi.XMLDictSerializer(metadata=metadata,
xmlns=wsgi.XMLNS_V11)`) and `xmlutil.XMLNS_V11` (via
`IPXMLSerializer.NSMAP`) for version `'1.1'`; no other version is
routable. -/
def ips.create_resource_root_ns (version : String) : Option String :=
  if version == "1.0" then some wsgi.XMLNS_V11
  else if version == "1.1" then some xmlutil.XMLNS_V11
  else none

/-!
## Theorems for the specification claims
-/

/-- Looking up in a one-entry association list. -/
theorem lookup_singleton (a k : String) (v : String) :
    ([(k, v)] : List (String × String)).lookup a =
      if a == k then some v else none := by
  cases h : (a == k) <;> simp [List.lookup, h]

/-- C4: for non-negative `offset`, `limit` and `max_limit`, `limited`
returns the window `[offset, offset + min(max_limit, limit or
max_limit))` clipped to the collection (a supplied limit of exactly 0
resolves to `max_limit`); in particular `items=[0..9], offset=2,
limit=3, max_limit=5` gives `[2,3,4]` and `offset=0, limit=0,
max_limit=5` gives the first five items. -/
theorem spec_C4 (items : List Int) (o l max_limit : Int)
    (ho : 0 ≤ o) (hl : 0 ≤ l) (hmax : 0 ≤ max_limit) :
    limited items (some o) (some l) max_limit =
      .ok ((items.drop o.toNat).take
        (min max_limit (if l = 0 then max_limit else l)).toNat) ∧
    limited ([0,1,2,3,4,5,6,7,8,9] : List Int) (some 2) (some 3) 5 =
      .ok [2, 3, 4] ∧
    limited ([0,1,2,3,4,5,6,7,8,9] : List Int) (some 0) (some 0) 5 =
      .ok [0, 1, 2, 3, 4] := by
  refine ⟨?_, by rfl, by rfl⟩
  have heff : 0 ≤ min max_limit (if l = 0 then max_limit else l) := by
    by_cases h0 : l = 0 <;> simp [h0] <;> omega
  simp only [limited, Option.getD_some]
  rw [if_neg (by omega), if_neg (by omega),
    pySlice_of_nonneg _ _ _ ho (by omega)]
  have harith : (o + min max_limit (if l = 0 then max_limit else l)).toNat
      - o.toNat = (min max_limit (if l = 0 then max_limit else l)).toNat := by
    generalize min max_limit (if l = 0 then max_limit else l) = e at heff ⊢
    omega
  rw [harith]

/-- Witness for C4 at `items=[0..9], offset=2, limit=3, max_limit=5`. -/
theorem spec_C4_witness :
    limited ([0,1,2,3,4,5,6,7,8,9] : List Int) (some 2) (some 3) 5 =
      .ok ((([0,1,2,3,4,5,6,7,8,9] : List Int).drop (2:Int).toNat).take
        (min (5:Int) (if (3:Int) = 0 then 5 else 3)).toNat) :=
  (spec_C4 [0,1,2,3,4,5,6,7,8,9] 2 3 5 (by decide) (by decide) (by decide)).1

/-- C6: `status_from_state` is total: it always returns a non-empty
status string; a state absent from `_STATE_MAP` yields
`'UNKNOWN_STATE'`; a known state with a task state that is not specially
mapped yields that state's `'default'` entry. -/
theorem spec_C6 (vm task : String) :
    status_from_state vm task ≠ "" ∧
    (_STATE_MAP.lookup vm = none →
      status_from_state vm task = "UNKNOWN_STATE") ∧
    (∀ tm, _STATE_MAP.lookup vm = some tm → tm.lookup task = none →
      status_from_state vm task = (tm.lookup "default").getD "") := by
  have hU : ∀ x ∈ _STATE_MAP.map Prod.snd,
      ((x.lookup "default").getD "") ≠ "" := by decide
  have hV : ∀ x ∈ _STATE_MAP.map Prod.snd, ∀ v ∈ x.map Prod.snd,
      v ≠ "" := by decide
  cases h : _STATE_MAP.lookup vm with
  | none =>
    refine ⟨?_, fun _ => ?_, fun tm htm => nomatch htm⟩ <;>
      simp only [status_from_state, h, Option.getD_none, lookup_singleton] <;>
      cases htask : (task == "default") <;> simp [htask]
  | some tm =>
    have hmem : tm ∈ _STATE_MAP.map Prod.snd := lookup_mem_values _ _ _ h
    refine ⟨?_, ?_, ?_⟩
    · simp only [status_from_state, h, Option.getD_some]
      cases h2 : tm.lookup task with
      | none => simpa [h2] using hU tm hmem
      | some s =>
        simpa [h2] using hV tm hmem s (lookup_mem_values _ _ _ h2)
    · intro hn
      exact absurd hn (by simp)
    · intro tm' htm' hnone
      injection htm' with htm'
      subst htm'
      simp [status_from_state, h, hnone]

/-- Witness for C6: an undeclared state maps to `UNKNOWN_STATE`, and a
declared state with an unmapped task state maps to its default entry. -/
theorem spec_C6_witness :
    status_from_state "no-such-state" "t" = "UNKNOWN_STATE" ∧
    status_from_state vm_states.BUILDING "weird-task" =
      (([("default", "BUILD")] : List (String × String)).lookup
        "default").getD "" :=
  ⟨(spec_C6 "no-such-state" "t").2.1 (by decide),
   (spec_C6 vm_states.BUILDING "weird-task").2.2
     [("default", "BUILD")] (by decide) (by decide)⟩

/-- `List.find?`-then-project agrees across two lists whose key and
comparison projections agree pointwise. -/
theorem find?_fst_congr {σ τ υ : Type} (c1 : τ → String) (c2 : υ → String)
    (l1 : List (σ × τ)) :
    ∀ l2 : List (σ × υ),
    l1.map (fun e => (e.1, c1 e.2)) = l2.map (fun e => (e.1, c2 e.2)) →
    ∀ key, (l1.find? (fun p => key == c1 p.2)).map (fun p => p.1) =
      (l2.find? (fun p => key == c2 p.2)).map (fun p => p.1) := by
  induction l1 with
  | nil =>
    intro l2 h key
    cases l2 with
    | nil => rfl
    | cons b t2 => simp at h
  | cons a t1 ih =>
    intro l2 h key
    cases l2 with
    | nil => simp at h
    | cons b t2 =>
      simp only [List.map_cons, List.cons.injEq, Prod.mk.injEq] at h
      obtain ⟨⟨h1, h2⟩, h3⟩ := h
      simp only [List.find?]
      rw [h2]
      cases hk : (key == c2 b.2)
      · exact ih t2 h3 key
      · simp [h1]

/-- C9: `vm_state_from_status` compares case-insensitively against each
state's `default` status string, iterating states in the fixed table
order and returning the first match; `'DELETED'` (in any case) resolves
to the first-declared of the two states whose default status is
`'DELETED'`, namely `vm_states.DELETED` (not `SOFT_DELETE`). -/
theorem spec_C9 :
    vm_state_from_status "DELETED" = some vm_states.DELETED ∧
    vm_state_from_status "deleted" = some vm_states.DELETED ∧
    vm_state_from_status "DeLeTeD" = some vm_states.DELETED ∧
    ∀ status, vm_state_from_status status = state_from_status_spec status := by
  refine ⟨by rfl, by rfl, by rfl, fun status => ?_⟩
  exact find?_fst_congr (fun t => pyLower ((t.lookup "default").getD ""))
    (fun d => pyLower d) _STATE_MAP declared_defaults_in_order
    (by rfl) (pyLower status)

/-- C10: `get_version_from_href` takes the first `/v<digits>.<digits>/`
occurrence, else a trailing `/v<digits>.<digits>`, else returns
`'1.0'`, and the numeric part of either match location is extracted by
the single function `extract_version_number`; in particular
`'http://host/v1.1/123'` gives `'1.1'` and `'http://host/123'` gives
`'1.0'`. -/
theorem spec_C10 (href : String) :
    (∀ m, findLeftmost tryPatSlash href.toList = some m →
      get_version_from_href href = extract_version_number m) ∧
    (findLeftmost tryPatSlash href.toList = none →
      ∀ m, findLeftmost tryPatEnd href.toList = some m →
        get_version_from_href href = extract_version_number m) ∧
    (findLeftmost tryPatSlash href.toList = none →
      findLeftmost tryPatEnd href.toList = none →
      get_version_from_href href = "1.0") ∧
    get_version_from_href "http://host/v1.1/123" = "1.1" ∧
    get_version_from_href "http://host/123" = "1.0" := by
  refine ⟨?_, ?_, ?_, by rfl, by rfl⟩
  · intro m hm
    simp only [get_version_from_href]
    rw [hm]
  · intro h1 m hm
    simp only [get_version_from_href]
    rw [h1, hm]
  · intro h1 h2
    simp only [get_version_from_href]
    rw [h1, h2]

/-- Witness for C10 at `'http://host/v1.1/123'`, whose first
`/v<digits>.<digits>/` match is `/v1.1/`. -/
theorem spec_C10_witness :
    get_version_from_href "http://host/v1.1/123" =
      extract_version_number "/v1.1/".toList :=
  (spec_C10 "http://host/v1.1/123").1 "/v1.1/".toList (by rfl)

/-- C2 counterexample: the address resource for API version `'1.0'` is
serialized with the v1.1 namespace URI, not the v1.0 one, so the root
namespace is not determined by the negotiated version. -/
theorem spec_C2_counterexample :
    ips.create_resource_root_ns "1.0" = some XML_NS_V11 ∧
    ips.create_resource_root_ns "1.0" ≠ some XML_NS_V10 := by
  refine ⟨by rfl, ?_⟩
  intro h
  simp [ips.create_resource_root_ns, wsgi.XMLNS_V11, XML_NS_V10] at h

/-- C2 amended: the two namespace constants are distinct, but for the
metadata and address resources the serializers use the v1.1 namespace
URI for both negotiated API versions. -/
theorem spec_C2_amended :
    XML_NS_V10 ≠ XML_NS_V11 ∧
    ips.create_resource_root_ns "1.0" = some XML_NS_V11 ∧
    ips.create_resource_root_ns "1.1" = some XML_NS_V11 ∧
    ∀ m, (MetadataXMLSerializer.create m).ns = some XML_NS_V11 := by
  refine ⟨by decide, by rfl, by rfl, fun m => by rfl⟩

/-- C1 counterexample: the integer marker `0` passes validation
(`0 ≥ 0`), no element of `[{id: 5}]` has id `0`, yet `limited_by_marker`
returns the whole collection instead of failing with "marker not found":
a falsy validated marker is silently ignored. -/
theorem spec_C1_counterexample :
    limited_by_marker [Item.mk 5] (some 0) none 10 = .ok [Item.mk 5] ∧
    (0 : Int) ≥ 0 ∧
    (∀ it ∈ [Item.mk 5], it.id ≠ 0) :=
  ⟨by rfl, by decide, by decide⟩

/-- C1 amended: for a validated *non-zero* marker, `limited_by_marker`
scans `items` in order for the first element whose `id` equals the
marker and the window starts immediately after it, failing with
"marker not found" when no element matches; when the marker is absent
*or equal to the falsy integer 0*, the window starts at index 0. -/
theorem spec_C1_amended (items : List Item) (m : Int) (lim : Option Int)
    (max_limit : Int) (hm0 : 0 ≤ m) (hm : m ≠ 0) (hmax : 0 ≤ max_limit)
    (hlim : ∀ l, lim = some l → 0 ≤ l) :
    ((∀ it ∈ items, it.id ≠ m) →
      limited_by_marker items (some m) lim max_limit =
        .error ("marker [" ++ toString m ++ "] not found")) ∧
    (∀ i, items.findIdx? (fun it => it.id == m) = some i →
      limited_by_marker items (some m) lim max_limit =
        .ok ((items.drop (i + 1)).take
          (min max_limit (lim.getD max_limit)).toNat)) ∧
    limited_by_marker items none lim max_limit =
      .ok (items.take (min max_limit (lim.getD max_limit)).toNat) ∧
    limited_by_marker items (some 0) lim max_limit =
      limited_by_marker items none lim max_limit := by
  have heff : 0 ≤ min max_limit (lim.getD max_limit) := by
    cases lim with
    | none => simpa using hmax
    | some l =>
      have := hlim l rfl
      simp only [Option.getD_some]
      omega
  have hp : get_pagination_params (some m) lim = .ok (some m, lim) := by
    simp only [get_pagination_params]
    rw [if_neg (by omega)]
    cases lim with
    | none => rfl
    | some l =>
      dsimp only
      rw [if_neg (by have := hlim l rfl; omega)]
  have hp0 : get_pagination_params (some 0) lim = .ok (some 0, lim) := by
    simp only [get_pagination_params]
    rw [if_neg (by omega)]
    cases lim with
    | none => rfl
    | some l =>
      dsimp only
      rw [if_neg (by have := hlim l rfl; omega)]
  have hpn : get_pagination_params none lim = .ok (none, lim) := by
    simp only [get_pagination_params]
    cases lim with
    | none => rfl
    | some l =>
      dsimp only
      rw [if_neg (by have := hlim l rfl; omega)]
  refine ⟨?_, ?_, ?_, ?_⟩
  · intro hno
    have hfind : items.findIdx? (fun it => it.id == m) = none := by
      rw [List.findIdx?_eq_none_iff]
      intro it hit
      simpa using hno it hit
    simp only [limited_by_marker, hp, Option.getD_some]
    rw [if_pos hm, hfind]
  · intro i hi
    simp only [limited_by_marker, hp, Option.getD_some]
    rw [if_pos hm, hi]
    dsimp only
    rw [pySlice_of_nonneg _ _ _ (by omega) (by omega)]
    have harith :
        (((i : Int) + 1 + min max_limit (lim.getD max_limit)).toNat -
          ((i : Int) + 1).toNat) = (min max_limit (lim.getD max_limit)).toNat ∧
        ((i : Int) + 1).toNat = i + 1 := by
      generalize min max_limit (lim.getD max_limit) = e at heff ⊢
      omega
    rw [harith.1, harith.2]
  · simp only [limited_by_marker, hpn, Option.getD_none]
    rw [if_neg (by omega), pySlice_of_nonneg _ _ _ (by omega) heff]
    simp
  · simp only [limited_by_marker, hp0, hpn, Option.getD_some, Option.getD_none]

/-- Witness for C1 amended at `items=[{id:1},{id:2},{id:3}], marker=2,
limit=10, max_limit=10`: the first match is at index 1, so the window is
`items[2:]`, i.e. `[{id:3}]`. -/
theorem spec_C1_amended_witness :
    limited_by_marker [Item.mk 1, Item.mk 2, Item.mk 3] (some 2) (some 10)
        10 =
      .ok (([Item.mk 1, Item.mk 2, Item.mk 3].drop (1 + 1)).take
        (min (10:Int) ((some (10:Int)).getD 10)).toNat) :=
  (spec_C1_amended [Item.mk 1, Item.mk 2, Item.mk 3] 2 (some 10) 10
      (by decide) (by decide) (by decide)
      (fun l hl => by injection hl with hl; omega)).2.1 1 (by rfl)

/-- A window `items[a : a+e]` with `0 ≤ a`, `0 ≤ e ≤ bound` has length
at most `bound` and is a contiguous sub-sequence. -/
theorem pySlice_window_bound (l : List α) (a e bound : Int)
    (ha : 0 ≤ a) (he : 0 ≤ e) (heb : e ≤ bound) :
    (pySlice l a (a + e)).length ≤ bound.toNat ∧
    ∃ pre post, l = pre ++ pySlice l a (a + e) ++ post := by
  rw [pySlice_of_nonneg _ _ _ ha (by omega)]
  refine ⟨?_, drop_take_infix l a.toNat _⟩
  have hlen := List.length_take ((a + e).toNat - a.toNat) (l.drop a.toNat)
  omega

/-- When `get_pagination_params` succeeds it returns its (validated)
inputs. -/
theorem get_pagination_params_ok {a b m l : Option Int}
    (h : get_pagination_params a b = .ok (m, l)) :
    m = a ∧ l = b ∧ (∀ x, l = some x → 0 ≤ x) := by
  unfold get_pagination_params at h
  cases a with
  | some mv =>
    dsimp only at h
    by_cases hmv : mv < 0
    · rw [if_pos hmv] at h
      exact absurd h (by simp)
    · rw [if_neg hmv] at h
      cases b with
      | some lv =>
        dsimp only at h
        by_cases hlv : lv < 0
        · rw [if_pos hlv] at h
          exact absurd h (by simp)
        · rw [if_neg hlv] at h
          simp only [Except.ok.injEq, Prod.mk.injEq] at h
          obtain ⟨h1, h2⟩ := h
          subst h1
          subst h2
          exact ⟨rfl, rfl, fun x hx => by injection hx with hx; omega⟩
      | none =>
        simp only [Except.ok.injEq, Prod.mk.injEq] at h
        obtain ⟨h1, h2⟩ := h
        subst h1
        subst h2
        exact ⟨rfl, rfl, fun x hx => nomatch hx⟩
  | none =>
    cases b with
    | some lv =>
      dsimp only at h
      by_cases hlv : lv < 0
      · rw [if_pos hlv] at h
        exact absurd h (by simp)
      · rw [if_neg hlv] at h
        simp only [Except.ok.injEq, Prod.mk.injEq] at h
        obtain ⟨h1, h2⟩ := h
        subst h1
        subst h2
        exact ⟨rfl, rfl, fun x hx => by injection hx with hx; omega⟩
    | none =>
      simp only [Except.ok.injEq, Prod.mk.injEq] at h
      obtain ⟨h1, h2⟩ := h
      subst h1
      subst h2
      exact ⟨rfl, rfl, fun x hx => nomatch hx⟩

/-- C5: for non-negative `max_limit`, whenever `limited` or
`limited_by_marker` returns successfully, the returned window is a
contiguous sub-sequence of the input collection of length at most
`max_limit` (and hence starts at a well-defined index `≥ 0`). -/
theorem spec_C5 (items : List Item) (p1 p2 : Option Int) (max_limit : Int)
    (hmax : 0 ≤ max_limit) (out : List Item) :
    (limited items p1 p2 max_limit = .ok out →
      out.length ≤ max_limit.toNat ∧
      ∃ pre post, items = pre ++ out ++ post) ∧
    (limited_by_marker items p1 p2 max_limit = .ok out →
      out.length ≤ max_limit.toNat ∧
      ∃ pre post, items = pre ++ out ++ post) := by
  constructor
  · intro h
    simp only [limited] at h
    by_cases h1 : (p2.getD max_limit) < 0
    · rw [if_pos h1] at h
      exact absurd h (by simp)
    rw [if_neg h1] at h
    by_cases h2 : (p1.getD 0) < 0
    · rw [if_pos h2] at h
      exact absurd h (by simp)
    rw [if_neg h2] at h
    simp only [Except.ok.injEq] at h
    have heff : 0 ≤ min max_limit
          (if p2.getD max_limit = 0 then max_limit else p2.getD max_limit) ∧
        min max_limit
          (if p2.getD max_limit = 0 then max_limit else p2.getD max_limit) ≤
          max_limit := by
      by_cases hz : p2.getD max_limit = 0 <;> simp [hz] <;> omega
    rw [← h]
    exact pySlice_window_bound items (p1.getD 0) _ max_limit (by omega)
      heff.1 heff.2
  · intro h
    simp only [limited_by_marker] at h
    cases hp : get_pagination_params p1 p2 with
    | error e =>
      rw [hp] at h
      exact absurd h (by simp)
    | ok pr =>
      obtain ⟨mm, ll⟩ := pr
      rw [hp] at h
      dsimp only at h
      obtain ⟨hm1, hl1, hlv⟩ := get_pagination_params_ok hp
      have hll : 0 ≤ ll.getD max_limit := by
        cases ll with
        | none => simpa using hmax
        | some x =>
          have := hlv x rfl
          simpa using this
      have heff : 0 ≤ min max_limit (ll.getD max_limit) ∧
          min max_limit (ll.getD max_limit) ≤ max_limit := by
        constructor <;> [exact le_min hmax hll; exact min_le_left _ _]
      by_cases hmm : mm.getD 0 ≠ 0
      · rw [if_pos hmm] at h
        cases hf : items.findIdx? (fun it => it.id == mm.getD 0) with
        | none =>
          rw [hf] at h
          exact absurd h (by simp)
        | some i =>
          rw [hf] at h
          simp only [Except.ok.injEq] at h
          rw [← h]
          exact pySlice_window_bound items ((i : Int) + 1) _ max_limit
            (by omega) heff.1 heff.2
      · rw [if_neg hmm] at h
        simp only [Except.ok.injEq] at h
        rw [← h]
        have h0 : pySlice items 0 (min max_limit (ll.getD max_limit)) =
            pySlice items 0 (0 + min max_limit (ll.getD max_limit)) := by
          rw [zero_add]
        rw [h0]
        exact pySlice_window_bound items 0 _ max_limit (by omega)
          heff.1 heff.2

/-- Witness for C5: `limited` on the two-item collection with offset 1,
limit 1, max_limit 5 returns the one-item window with id 2, of length
at most 5 and an infix of the input. -/
theorem spec_C5_witness :
    ([Item.mk 2] : List Item).length ≤ (5 : Int).toNat ∧
    ∃ pre post, [Item.mk 1, Item.mk 2] = pre ++ [Item.mk 2] ++ post :=
  (spec_C5 [Item.mk 1, Item.mk 2] (some 1) (some 1) 5 (by decide)
    [Item.mk 2]).1 (by rfl)

/-- `d[k] = v` on a dict not containing `k` appends the entry. -/
theorem dictUpdate_of_not_mem {α : Type} (d : List (String × α)) (k : String)
    (v : α) (h : ∀ p ∈ d, p.1 ≠ k) : dictUpdate d k v = d ++ [(k, v)] := by
  unfold dictUpdate
  rw [if_neg]
  simp only [List.any_eq_true, not_exists, not_and]
  intro p hp
  simpa using h p hp

/-- Folding `d[k] = v` over entries with pairwise-fresh, nodup keys
appends them in order. -/
theorem foldl_dictUpdate_eq_append {α : Type} (m : List (String × α)) :
    ∀ acc : List (String × α),
    (m.map Prod.fst).Nodup →
    (∀ p ∈ acc, ∀ q ∈ m, p.1 ≠ q.1) →
    m.foldl (fun md kv => dictUpdate md kv.1 kv.2) acc = acc ++ m := by
  induction m with
  | nil =>
    intro acc _ _
    simp
  | cons kv t ih =>
    intro acc hnd hfresh
    simp only [List.map_cons, List.nodup_cons] at hnd
    rw [List.foldl_cons,
      dictUpdate_of_not_mem acc kv.1 kv.2
        (fun p hp => hfresh p hp kv (List.mem_cons_self _ _)),
      ih (acc ++ [(kv.1, kv.2)]) hnd.2 ?_]
    · simp
    · intro p hp q hq
      rcases List.mem_append.mp hp with hp1 | hp2
      · exact hfresh p hp1 q (List.mem_cons_of_mem _ hq)
      · have : p = (kv.1, kv.2) := by simpa using hp2
        subst this
        intro hcontra
        exact hnd.1 (hcontra ▸ List.mem_map_of_mem Prod.fst hq)

/-- C3: the metadata serializer renders one `meta` child per entry with
a `key` attribute and text equal to the value, and for any string
mapping with distinct keys, deserializing the serialization yields the
mapping again inside the `{body: {metadata: ...}}` envelope. -/
theorem spec_C3 (m : List (String × String))
    (hnd : (m.map Prod.fst).Nodup) :
    (MetadataXMLSerializer.create m).children =
      m.map (fun kv => ⟨"meta", [("key", kv.1)], kv.2⟩) ∧
    MetadataXMLDeserializer.create (MetadataXMLSerializer.create m) =
      ⟨⟨m⟩⟩ := by
  refine ⟨rfl, ?_⟩
  simp only [MetadataXMLDeserializer.create, MetadataXMLSerializer.create]
  rw [if_pos (by rfl)]
  simp only [extract_metadata, populate_metadata]
  rw [List.filter_map]
  have hfilter :
      (List.filter ((fun c => c.tag == "meta") ∘
          (fun kv : String × String => XmlChild.mk "meta" [("key", kv.1)] kv.2))
        m) = m := by
    rw [List.filter_eq_self]
    intro a _
    rfl
  rw [hfilter, List.foldl_map]
  have hstep : (fun (md : List (String × String)) (kv : String × String) =>
      dictUpdate md
        (getAttribute (XmlChild.mk "meta" [("key", kv.1)] kv.2).attrs "key")
        (XmlChild.mk "meta" [("key", kv.1)] kv.2).text) =
      (fun md kv => dictUpdate md kv.1 kv.2) := by
    funext md kv
    rfl
  rw [hstep, foldl_dictUpdate_eq_append m [] hnd (by simp)]
  simp

/-- Witness for C3 at the mapping `[("a","1"), ("b","2")]`. -/
theorem spec_C3_witness :
    (MetadataXMLSerializer.create [("a", "1"), ("b", "2")]).children =
      [("a", "1"), ("b", "2")].map
        (fun kv => ⟨"meta", [("key", kv.1)], kv.2⟩) ∧
    MetadataXMLDeserializer.create
        (MetadataXMLSerializer.create [("a", "1"), ("b", "2")]) =
      ⟨⟨[("a", "1"), ("b", "2")]⟩⟩ :=
  spec_C3 [("a", "1"), ("b", "2")] (by decide)

/-- `takeDigits` splits its input: the two components rebuild the input,
the first is all digits, and the second starts with a non-digit (or is
empty). -/
theorem takeDigits_sound (l : List Char) :
    ∀ ds r, takeDigits l = (ds, r) →
    l = ds ++ r ∧ (∀ c ∈ ds, c.isDigit = true) ∧
    (r = [] ∨ ∃ c cs, r = c :: cs ∧ c.isDigit = false) := by
  induction l with
  | nil =>
    intro ds r h
    simp only [takeDigits, Prod.mk.injEq] at h
    obtain ⟨h1, h2⟩ := h
    subst h1
    subst h2
    exact ⟨rfl, by simp, Or.inl rfl⟩
  | cons c cs ih =>
    intro ds r h
    simp only [takeDigits] at h
    by_cases hc : c.isDigit
    · rw [if_pos hc] at h
      cases htd : takeDigits cs with
      | mk ds' r' =>
        rw [htd] at h
        dsimp only at h
        simp only [Prod.mk.injEq] at h
        obtain ⟨h1, h2⟩ := h
        subst h1
        subst h2
        obtain ⟨ha, hb, hcr⟩ := ih ds' r' htd
        refine ⟨by simp [ha], ?_, hcr⟩
        intro x hx
        rcases List.mem_cons.mp hx with hx1 | hx2
        · subst hx1
          exact hc
        · exact hb x hx2
    · rw [if_neg hc] at h
      simp only [Prod.mk.injEq] at h
      obtain ⟨h1, h2⟩ := h
      subst h1
      subst h2
      exact ⟨rfl, by simp, Or.inr ⟨c, cs, rfl, by simpa using hc⟩⟩

/-- `takeDigits` on a digit run followed by a non-digit-headed (or
empty) remainder returns exactly that split. -/
theorem takeDigits_complete (ds : List Char) :
    ∀ r, (∀ c ∈ ds, c.isDigit = true) →
    (r = [] ∨ ∃ c cs, r = c :: cs ∧ c.isDigit = false) →
    takeDigits (ds ++ r) = (ds, r) := by
  induction ds with
  | nil =>
    intro r _ hr
    rcases hr with rfl | ⟨c, cs, rfl, hc⟩
    · rfl
    · simp [takeDigits, hc]
  | cons d t ih =>
    intro r hds hr
    have hd : d.isDigit = true := hds d (List.mem_cons_self _ _)
    simp only [List.cons_append, takeDigits, hd, if_pos, List.append_eq]
    rw [ih r (fun c hc => hds c (List.mem_cons_of_mem _ hc)) hr]

/-- Soundness-direction characterization of a successful strip: the
path decomposes as `/v<digits>.<digits>` followed by the result, which
is empty or `/`-headed. -/
theorem stripVChars_some_inv (l r : List Char) (h : stripVChars l = some r) :
    ∃ d1 d2, d1 ≠ [] ∧ d2 ≠ [] ∧ (∀ c ∈ d1, c.isDigit = true) ∧
      (∀ c ∈ d2, c.isDigit = true) ∧
      l = '/' :: 'v' :: (d1 ++ '.' :: (d2 ++ r)) ∧
      (r = [] ∨ ∃ t, r = '/' :: t) := by
  rw [stripVChars.eq_def] at h
  split at h
  · rename_i rest
    split at h
    · exact absurd h (by simp)
    · rename_i c1 ds1 r1 heq1
      split at h
      · rename_i r2
        split at h
        · exact absurd h (by simp)
        · rename_i c2 ds2 r3 heq2
          obtain ⟨ha1, hb1, _⟩ := takeDigits_sound rest _ _ heq1
          obtain ⟨ha2, hb2, _⟩ := takeDigits_sound r2 _ _ heq2
          split at h
          · simp only [Option.some.injEq] at h
            subst h
            exact ⟨c1 :: ds1, c2 :: ds2, by simp, by simp, hb1, hb2,
              by simp [ha1, ha2], Or.inl rfl⟩
          · simp only [Option.some.injEq] at h
            subst h
            exact ⟨c1 :: ds1, c2 :: ds2, by simp, by simp, hb1, hb2,
              by simp [ha1, ha2], Or.inr ⟨_, rfl⟩⟩
          · exact absurd h (by simp)
      · exact absurd h (by simp)
  · exact absurd h (by simp)

/-- Completeness-direction: a path of the decomposed shape strips to
exactly the remainder after the first version segment. -/
theorem stripVChars_some (d1 d2 rest : List Char)
    (h1 : d1 ≠ []) (h2 : d2 ≠ [])
    (hd1 : ∀ c ∈ d1, c.isDigit = true) (hd2 : ∀ c ∈ d2, c.isDigit = true)
    (hrest : rest = [] ∨ ∃ t, rest = '/' :: t) :
    stripVChars ('/' :: 'v' :: (d1 ++ '.' :: (d2 ++ rest))) = some rest := by
  have ht1 : takeDigits (d1 ++ '.' :: (d2 ++ rest)) =
      (d1, '.' :: (d2 ++ rest)) :=
    takeDigits_complete d1 _ hd1 (Or.inr ⟨'.', _, rfl, by decide⟩)
  have ht2 : takeDigits (d2 ++ rest) = (d2, rest) := by
    apply takeDigits_complete d2 rest hd2
    rcases hrest with rfl | ⟨t, rfl⟩
    · exact Or.inl rfl
    · exact Or.inr ⟨'/', t, rfl, by decide⟩
  cases d1 with
  | nil => exact absurd rfl h1
  | cons a t1 =>
    cases d2 with
    | nil => exact absurd rfl h2
    | cons b t2 =>
      simp only [stripVChars]
      rw [ht1]
      simp only []
      rw [ht2]
      rcases hrest with rfl | ⟨t, rfl⟩ <;> rfl

/-- C7 counterexample: with a path of two stacked version segments, the
first strip succeeds, and — contrary to the claim that a second
application must fail — the second strip succeeds as well, because the
remainder again starts with a version segment. -/
theorem spec_C7_counterexample :
    remove_version_from_href ⟨"http", "host", "/v1.1/v2.0/x", "", ""⟩ =
      .ok ⟨"http", "host", "/v2.0/x", "", ""⟩ ∧
    remove_version_from_href ⟨"http", "host", "/v2.0/x", "", ""⟩ =
      .ok ⟨"http", "host", "/x", "", ""⟩ :=
  ⟨rfl, rfl⟩

/-- C7 amended: a href whose path has no leading `/v<digits>.<digits>`
segment fails with the version-not-found error; a href whose path has
one gets exactly that first segment removed; and a second application to
the result fails precisely when the remaining path no longer begins
with a version segment (when the remainder is itself version-headed,
as in `/v1.1/v2.0/x`, the second strip succeeds instead). -/
theorem spec_C7_amended (u : SplitUrl) :
    (stripVChars u.path.toList = none →
      remove_version_from_href u =
        .error ("href " ++ u.path ++ " does not contain version")) ∧
    (∀ d1 d2 rest, d1 ≠ [] → d2 ≠ [] →
      (∀ c ∈ d1, c.isDigit = true) → (∀ c ∈ d2, c.isDigit = true) →
      u.path.toList = '/' :: 'v' :: (d1 ++ '.' :: (d2 ++ rest)) →
      (rest = [] ∨ ∃ t, rest = '/' :: t) →
      remove_version_from_href u =
        .ok ⟨u.scheme, u.netloc, String.mk rest, u.query, u.fragment⟩) ∧
    (∀ u', remove_version_from_href u = .ok u' →
      stripVChars u'.path.toList = none →
      remove_version_from_href u' =
        .error ("href " ++ u'.path ++ " does not contain version")) ∧
    remove_version_from_href ⟨"http", "www.nova.com", "/v1.1/123", "", ""⟩ =
      .ok ⟨"http", "www.nova.com", "/123", "", ""⟩ ∧
    remove_version_from_href ⟨"http", "www.nova.com", "/123", "", ""⟩ =
      .error ("href /123 does not contain version") := by
  have hnone : ∀ w : SplitUrl, stripVChars w.path.toList = none →
      remove_version_from_href w =
        .error ("href " ++ w.path ++ " does not contain version") := by
    intro w hw
    simp only [remove_version_from_href, hw, Option.map_none', Option.getD_none,
      if_true]
  refine ⟨hnone u, ?_, fun u' _ => hnone u', by rfl, by rfl⟩
  intro d1 d2 rest h1 h2 hd1 hd2 hpath hrest
  have hs : stripVChars u.path.toList = some rest := by
    rw [hpath]
    exact stripVChars_some d1 d2 rest h1 h2 hd1 hd2 hrest
  have hne : String.mk rest ≠ u.path := by
    intro hcontra
    have hlists : rest = u.path.toList := congrArg String.toList hcontra
    have hlen := congrArg List.length hlists
    rw [hpath] at hlen
    simp only [List.length_cons, List.length_append] at hlen
    have hd1len : 0 < d1.length := List.length_pos.mpr h1
    omega
  simp only [remove_version_from_href, hs, Option.map_some', Option.getD_some]
  rw [if_neg hne]

/-- Witness for C7 amended: the versionless href fails, and
`http://www.nova.com/v1.1/123` strips to `http://www.nova.com/123`. -/
theorem spec_C7_amended_witness :
    remove_version_from_href ⟨"http", "host", "/123", "", ""⟩ =
      .error ("href /123 does not contain version") ∧
    remove_version_from_href ⟨"http", "www.nova.com", "/v1.1/123", "", ""⟩ =
      .ok ⟨"http", "www.nova.com", String.mk ('/' :: "123".toList), "", ""⟩ :=
  ⟨(spec_C7_amended ⟨"http", "host", "/123", "", ""⟩).1 (by rfl),
   (spec_C7_amended ⟨"http", "www.nova.com", "/v1.1/123", "", ""⟩).2.1
     ['1'] ['1'] ('/' :: "123".toList) (by decide) (by decide) (by decide)
     (by decide) (by rfl) (Or.inr ⟨"123".toList, rfl⟩)⟩

/-- A missing `ip` key inside the fixed-address list makes the inner
loop fail. -/
theorem emit_fixed_error (g : String → List String) (entries : List IpEntry)
    (h : ∃ e ∈ entries, e.ip = none) :
    ∃ msg, emit_fixed g entries = .error msg := by
  induction entries with
  | nil => simp at h
  | cons e rest ih =>
    obtain ⟨x, hx, hxip⟩ := h
    cases he : e.ip with
    | none => exact ⟨"KeyError: ip", by simp only [emit_fixed, he]⟩
    | some s =>
      rcases List.mem_cons.mp hx with rfl | hx2
      · rw [he] at hxip
        exact absurd hxip (by simp)
      · obtain ⟨msg, hmsg⟩ := ih ⟨x, hx2, hxip⟩
        exact ⟨msg, by simp only [emit_fixed, he, hmsg]⟩

/-- A missing `ip` key inside the `ip6s` list makes the v6 comprehension
fail. -/
theorem emit_ip6_error (sixes : List IpEntry)
    (h : ∃ e ∈ sixes, e.ip = none) :
    ∃ msg, emit_ip6 sixes = .error msg := by
  induction sixes with
  | nil => simp at h
  | cons e rest ih =>
    obtain ⟨x, hx, hxip⟩ := h
    cases he : e.ip with
    | none => exact ⟨"KeyError: ip", by simp only [emit_ip6, he]⟩
    | some s =>
      rcases List.mem_cons.mp hx with rfl | hx2
      · rw [he] at hxip
        exact absurd hxip (by simp)
      · obtain ⟨msg, hmsg⟩ := ih ⟨x, hx2, hxip⟩
        exact ⟨msg, by simp only [emit_ip6, he, hmsg]⟩

/-- A malformed info record either makes the loop body fail during
assembly or has no `label` key (and then the assignment into the
`networks` dict fails). -/
theorem assemble_error_or_label (u : Bool) (g : String → List String)
    (info : NetInfo) (h : malformed u info) :
    (∃ msg, assemble_network u g info = .error msg) ∨ info.label = none := by
  rcases h with hips | ⟨entries, hent, hbad⟩ | ⟨hu, sixes, hsix, hbad⟩ | hlab
  · exact Or.inl ⟨"KeyError: ips", by simp only [assemble_network, hips]⟩
  · left
    obtain ⟨msg, hmsg⟩ := emit_fixed_error g entries hbad
    exact ⟨msg, by simp only [assemble_network, hent, hmsg]⟩
  · left
    cases hips : info.ips with
    | none => exact ⟨"KeyError: ips", by simp only [assemble_network, hips]⟩
    | some entries =>
      cases hef : emit_fixed g entries with
      | error msg => exact ⟨msg, by simp only [assemble_network, hips, hef]⟩
      | ok v =>
        obtain ⟨ips4, floats⟩ := v
        obtain ⟨msg, hmsg⟩ := emit_ip6_error sixes hbad
        exact ⟨msg, by simp only [assemble_network, hips, hef, hu, hsix, hmsg]⟩
  · exact Or.inr hlab

/-- Any malformed non-empty entry anywhere in `nw_info` makes the whole
loop fail, whatever has been accumulated so far. -/
theorem networks_loop_error (u : Bool) (g : String → List String)
    (nw : List (String × Option NetInfo)) :
    ∀ acc, (∃ p ∈ nw, ∃ info, p.2 = some info ∧ malformed u info) →
    ∃ msg, networks_loop u g acc nw = .error msg := by
  induction nw with
  | nil =>
    intro acc h
    simp at h
  | cons hd rest ih =>
    intro acc h
    obtain ⟨p, hp, info, hpinfo, hmal⟩ := h
    obtain ⟨net, oinfo⟩ := hd
    cases oinfo with
    | none =>
      rcases List.mem_cons.mp hp with rfl | hp2
      · exact absurd hpinfo (by simp)
      · obtain ⟨msg, hm⟩ := ih acc ⟨p, hp2, info, hpinfo, hmal⟩
        refine ⟨msg, ?_⟩
        simp only [networks_loop]
        exact hm
    | some info0 =>
      cases ha : assemble_network u g info0 with
      | error msg => exact ⟨msg, by simp only [networks_loop, ha]⟩
      | ok network =>
        cases hlab : info0.label with
        | none =>
          exact ⟨"KeyError: label", by simp only [networks_loop, ha, hlab]⟩
        | some lab =>
          rcases List.mem_cons.mp hp with rfl | hp2
          · simp only [Option.some.injEq] at hpinfo
            subst hpinfo
            rcases assemble_error_or_label u g info0 hmal with ⟨msg, hmsg⟩ | hl
            · rw [ha] at hmsg
              exact absurd hmsg (by simp)
            · rw [hlab] at hl
              exact absurd hl (by simp)
          · obtain ⟨msg, hm⟩ :=
              ih (dictUpdate acc lab network) ⟨p, hp2, info, hpinfo, hmal⟩
            refine ⟨msg, ?_⟩
            simp only [networks_loop, ha, hlab]
            exact hm

/-- C8: whenever `nw_info` contains a non-empty per-network info record
missing an expected field, `get_networks_for_instance` propagates the
failure to the caller (the `continue` after the re-raise is dead code):
no malformed entry is ever silently skipped into a successful result. -/
theorem spec_C8 (u : Bool) (g : String → List String)
    (nw : List (String × Option NetInfo))
    (h : ∃ p ∈ nw, ∃ info, p.2 = some info ∧ malformed u info) :
    ∃ msg, get_networks_for_instance u g nw = .error msg :=
  networks_loop_error u g nw [] h

/-- Witness for C8: a single non-empty info record with a label but no
`ips` key makes the whole call fail. -/
theorem spec_C8_witness :
    ∃ msg, get_networks_for_instance true (fun _ => [])
      [("net1", some ⟨some "public", none, none⟩)] = .error msg :=
  spec_C8 true (fun _ => []) [("net1", some ⟨some "public", none, none⟩)]
    ⟨("net1", some ⟨some "public", none, none⟩), List.mem_cons_self _ _,
     ⟨some "public", none, none⟩, rfl, Or.inl rfl⟩
